import Mathlib

/-
Verification of the journey analytics core of the rybbit repository:
getJourneys, getJourneyTransitionSessions and getJourneyStepEventDetails.
The ClickHouse queries issued by those handlers are embedded shallowly as
pure Lean functions over a list of event rows; JavaScript numeric parsing
with NaN is embedded with Option.  String helpers are implemented by
structural recursion over the character list so that concrete instances
evaluate inside the kernel.
-/

namespace Rybbit

/-- One row of the events table, restricted to the columns the journey
analytics queries read.  The JSON properties bag is modelled as its list of
key/value pairs; the literal empty-object string corresponds to the empty
list. -/
structure Event where
  session_id : String
  timestamp : Nat
  type : String
  pathname : String
  event_name : String
  user_id : String
  identified_user_id : String
  props : List (String × String)
deriving DecidableEq, Repr

/-- The interaction event types enumerated in the type IN lists of all three
queries. -/
def interactionTypes : List String :=
  ["custom_event", "button_click", "copy", "form_submit", "input_change", "outbound"]

/-- Split a character list at every slash, keeping empty pieces, with an
accumulator for the piece being read. -/
def splitSlashAux (acc : List Char) : List Char → List (List Char)
  | [] => [acc.reverse]
  | c :: t => if c = '/' then acc.reverse :: splitSlashAux [] t else splitSlashAux (c :: acc) t

/-- ClickHouse splitByChar with separator slash: splits on every slash and
keeps empty pieces. -/
def splitBySlash (s : String) : List String := (splitSlashAux [] s.data).map String.mk

/-- Character-list version of the startsWith test. -/
def charsStartWith : List Char → List Char → Bool
  | _, [] => true
  | [], _ :: _ => false
  | a :: s, b :: p => a = b && charsStartWith s p

/-- ClickHouse startsWith on strings. -/
def strStartsWith (s pat : String) : Bool := charsStartWith s.data pat.data

/-- The step_label CASE expression of getJourneys: a pageview pathname with at
least three slash-delimited pieces is reduced to slash followed by its second
piece (ClickHouse arrays are 1-based, so index 2 there is index 1 here);
interaction types get the event label; anything else falls back to the
pathname rule. -/
def step_label_journeys (type pathname event_name : String) : String :=
  if type = "pageview" then
    if 3 ≤ (splitBySlash pathname).length then "/" ++ (splitBySlash pathname).getD 1 ""
    else pathname
  else if interactionTypes.contains type then
    "event:" ++ type ++ (if event_name ≠ "" then ":" ++ event_name else "")
  else
    if 3 ≤ (splitBySlash pathname).length then "/" ++ (splitBySlash pathname).getD 1 ""
    else pathname

/-- The stepLabelCase expression of getJourneyTransitionSessions: a pageview
pathname starting with the draft-asset path is collapsed to a fixed label,
any other pathname is kept whole; interaction types get the event label. -/
def step_label_transitions (type pathname event_name : String) : String :=
  if type = "pageview" then
    if strStartsWith pathname "/asset/draft/" then "/asset/draft" else pathname
  else if interactionTypes.contains type then
    "event:" ++ type ++ (if event_name ≠ "" then ":" ++ event_name else "")
  else
    if strStartsWith pathname "/asset/draft/" then "/asset/draft" else pathname

/-- The step_label CASE expression of getJourneyStepEventDetails, transcribed
from its numbered_events CTE. -/
def step_label_details (type pathname event_name : String) : String :=
  if type = "pageview" then
    if strStartsWith pathname "/asset/draft/" then "/asset/draft" else pathname
  else if interactionTypes.contains type then
    "event:" ++ type ++ (if event_name ≠ "" then ":" ++ event_name else "")
  else
    if strStartsWith pathname "/asset/draft/" then "/asset/draft" else pathname

/-- ClickHouse arrayCompact: removes consecutive duplicate elements. -/
def arrayCompact [DecidableEq α] : List α → List α
  | [] => []
  | [a] => [a]
  | a :: b :: t => if a = b then arrayCompact (b :: t) else a :: arrayCompact (b :: t)

/-- Collapse written the way the spec words it: each maximal run of equal
consecutive labels becomes a single entry. -/
def collapseRuns [DecidableEq α] : List α → List α
  | [] => []
  | a :: t => a :: collapseRuns (t.dropWhile (fun b => b = a))
termination_by l => l.length
decreasing_by
  simp only [List.length_cons]
  exact Nat.lt_succ_of_le (List.dropWhile_suffix _).sublist.length_le

theorem arrayCompact_cons_eq [DecidableEq α] (a : α) (t : List α) :
    arrayCompact (a :: t) = a :: arrayCompact (t.dropWhile (fun b => b = a)) := by
  induction t with
  | nil => rfl
  | cons b t2 ih =>
    by_cases hba : b = a
    · subst hba
      rw [arrayCompact, if_pos rfl, ih, List.dropWhile_cons_of_pos]
      simp
    · rw [arrayCompact, if_neg (fun h => hba h.symm), List.dropWhile_cons_of_neg]
      simp [hba]

theorem arrayCompact_eq_collapseRuns [DecidableEq α] (l : List α) :
    arrayCompact l = collapseRuns l := by
  induction l using collapseRuns.induct with
  | case1 => rw [collapseRuns]; rfl
  | case2 a t ih => rw [arrayCompact_cons_eq, ih, collapseRuns]

/-- Insert an element into a list sorted by the boolean comparator, keeping it
before the first element it compares at-or-before. -/
def insertLE (le : α → α → Bool) (a : α) : List α → List α
  | [] => [a]
  | b :: t => if le a b then a :: b :: t else b :: insertLE le a t

/-- Stable insertion sort by a boolean comparator; models an ORDER BY clause
(ties keep their previous relative order). -/
def sortByLE (le : α → α → Bool) : List α → List α
  | [] => []
  | a :: t => insertLE le a (sortByLE le t)

theorem mem_insertLE (le : α → α → Bool) (a x : α) (l : List α) :
    x ∈ insertLE le a l ↔ x = a ∨ x ∈ l := by
  induction l with
  | nil => simp [insertLE]
  | cons b t ih =>
    by_cases h : le a b = true
    · simp [insertLE, h]
    · simp only [insertLE, if_neg h, List.mem_cons, ih]
      tauto

theorem perm_insertLE (le : α → α → Bool) (a : α) (l : List α) :
    (insertLE le a l).Perm (a :: l) := by
  induction l with
  | nil => simp [insertLE]
  | cons b t ih =>
    by_cases h : le a b = true
    · simp [insertLE, h]
    · rw [insertLE, if_neg h]
      exact (ih.cons b).trans (List.Perm.swap a b t)

theorem perm_sortByLE (le : α → α → Bool) (l : List α) :
    (sortByLE le l).Perm l := by
  induction l with
  | nil => simp [sortByLE]
  | cons a t ih => exact (perm_insertLE le a (sortByLE le t)).trans (ih.cons a)

theorem mem_sortByLE (le : α → α → Bool) (x : α) (l : List α) :
    x ∈ sortByLE le l ↔ x ∈ l := (perm_sortByLE le l).mem_iff

theorem pairwise_insertLE (le : α → α → Bool)
    (htot : ∀ a b, le a b = false → le b a = true)
    (htrans : ∀ a b c, le a b = true → le b c = true → le a c = true)
    (a : α) (l : List α) (h : l.Pairwise (fun x y => le x y = true)) :
    (insertLE le a l).Pairwise (fun x y => le x y = true) := by
  induction l with
  | nil => simp [insertLE]
  | cons b t ih =>
    rcases List.pairwise_cons.mp h with ⟨hb, ht⟩
    by_cases hab : le a b = true
    · rw [insertLE, if_pos hab]
      refine List.pairwise_cons.mpr ⟨?_, h⟩
      intro y hy
      rcases List.mem_cons.mp hy with rfl | hyt
      · exact hab
      · exact htrans a b y hab (hb y hyt)
    · rw [insertLE, if_neg hab]
      refine List.pairwise_cons.mpr ⟨?_, ih ht⟩
      intro y hy
      rcases (mem_insertLE le a y t).mp hy with heq | hyt
      · rw [heq]; exact htot a b (Bool.eq_false_iff.mpr hab)
      · exact hb y hyt

theorem pairwise_sortByLE (le : α → α → Bool)
    (htot : ∀ a b, le a b = false → le b a = true)
    (htrans : ∀ a b c, le a b = true → le b c = true → le a c = true)
    (l : List α) : (sortByLE le l).Pairwise (fun x y => le x y = true) := by
  induction l with
  | nil => simp [sortByLE]
  | cons a t ih => exact pairwise_insertLE le htot htrans a (sortByLE le t) ih

/-- Deduplication keeping the first occurrence, with an accumulator of values
already emitted; models reading off the distinct group keys of a GROUP BY in
first-appearance order. -/
def dedupAux [DecidableEq α] (seen : List α) : List α → List α
  | [] => []
  | a :: t => if a ∈ seen then dedupAux seen t else a :: dedupAux (a :: seen) t

def dedupKeepFirst [DecidableEq α] (l : List α) : List α := dedupAux [] l

theorem mem_dedupAux [DecidableEq α] (seen l : List α) (x : α) :
    x ∈ dedupAux seen l ↔ x ∈ l ∧ x ∉ seen := by
  induction l generalizing seen with
  | nil => simp [dedupAux]
  | cons a t ih =>
    rw [dedupAux]
    by_cases h : a ∈ seen
    · rw [if_pos h, ih]
      simp only [List.mem_cons]
      constructor
      · rintro ⟨hx, hns⟩; exact ⟨Or.inr hx, hns⟩
      · rintro ⟨rfl | hx, hns⟩
        · exact absurd h hns
        · exact ⟨hx, hns⟩
    · rw [if_neg h]
      simp only [List.mem_cons, ih, List.mem_cons]
      constructor
      · rintro (rfl | ⟨hx, hns⟩)
        · exact ⟨Or.inl rfl, h⟩
        · exact ⟨Or.inr hx, fun hs => hns (Or.inr hs)⟩
      · rintro ⟨rfl | hx, hns⟩
        · exact Or.inl rfl
        · by_cases hxa : x = a
          · exact Or.inl hxa
          · exact Or.inr ⟨hx, fun hs => hs.elim hxa hns⟩

theorem mem_dedupKeepFirst [DecidableEq α] (l : List α) (x : α) :
    x ∈ dedupKeepFirst l ↔ x ∈ l := by
  rw [dedupKeepFirst, mem_dedupAux]; simp

theorem nodup_dedupAux [DecidableEq α] (seen l : List α) :
    (dedupAux seen l).Nodup := by
  induction l generalizing seen with
  | nil => simp [dedupAux]
  | cons a t ih =>
    rw [dedupAux]
    by_cases h : a ∈ seen
    · rw [if_pos h]; exact ih seen
    · rw [if_neg h]
      refine List.nodup_cons.mpr ⟨?_, ih (a :: seen)⟩
      intro hmem
      exact ((mem_dedupAux (a :: seen) t a).mp hmem).2 (List.mem_cons_self a seen)

theorem nodup_dedupKeepFirst [DecidableEq α] (l : List α) :
    (dedupKeepFirst l).Nodup := nodup_dedupAux [] l

theorem dedupAux_eq_self [DecidableEq α] (seen l : List α) (hl : l.Nodup)
    (hd : ∀ x ∈ l, x ∉ seen) : dedupAux seen l = l := by
  induction l generalizing seen with
  | nil => rfl
  | cons a t ih =>
    rcases List.nodup_cons.mp hl with ⟨hat, ht⟩
    have hrec := ih (a :: seen) ht (by
      intro x hx hmem
      rcases List.mem_cons.mp hmem with rfl | hs
      · exact hat hx
      · exact hd x (List.mem_cons_of_mem a hx) hs)
    rw [dedupAux, if_neg (hd a (List.mem_cons_self a t)), hrec]

theorem dedupKeepFirst_eq_self [DecidableEq α] (l : List α) (hl : l.Nodup) :
    dedupKeepFirst l = l := dedupAux_eq_self [] l hl (by simp)

/-- Event-level wrappers of the three step label rules. -/
def stepLabelJ (e : Event) : String := step_label_journeys e.type e.pathname e.event_name

def stepLabelT (e : Event) : String := step_label_transitions e.type e.pathname e.event_name

def stepLabelD (e : Event) : String := step_label_details e.type e.pathname e.event_name

/-- The type clause of the journeys and transition queries: pageviews always,
interaction events only when includeEvents is set. -/
def typeAllowed (includeEvents : Bool) (e : Event) : Bool :=
  e.type = "pageview" || (includeEvents && interactionTypes.contains e.type)

/-- The excludeEventNames clause: drop interaction events whose name is in the
excluded set. -/
def notExcluded (excludeEventNames : List String) (e : Event) : Bool :=
  !(interactionTypes.contains e.type && excludeEventNames.contains e.event_name)

/-- The inner WHERE filter shared by the journeys and transition queries.  The
store argument stands for the events already passing the site, time and
filter-statement predicate, which the queries treat as opaque. -/
def journeyEvents (includeEvents : Bool) (excludeEventNames : List String)
    (store : List Event) : List Event :=
  store.filter (fun e => typeAllowed includeEvents e && notExcluded excludeEventNames e)

/-- The events of one session ordered by timestamp (the scan orders by
session_id then timestamp; ties keep ingestion order via stability). -/
def eventsOfSession (store : List Event) (sid : String) : List Event :=
  sortByLE (fun a b => a.timestamp ≤ b.timestamp)
    (store.filter (fun e => e.session_id = sid))

/-- The distinct session identifiers of a store, in first-appearance order. -/
def sessionIds (store : List Event) : List String :=
  dedupKeepFirst (store.map (fun e => e.session_id))

/-- One row of the user_paths CTE: the consecutive-duplicate-collapsed label
sequence next to the raw, uncollapsed timestamp array. -/
structure SessionPath where
  session_id : String
  path_sequence : List String
  timestamps : List Nat
deriving DecidableEq, Repr

/-- The user_paths CTE: group the filtered scan by session, collapse the label
sequence with arrayCompact, keep the timestamp array, and keep only sessions
whose collapsed sequence has at least two entries. -/
def buildUserPaths (label : Event → String) (store : List Event) : List SessionPath :=
  (sessionIds store).filterMap (fun sid =>
    let evs := eventsOfSession store sid
    let seq := arrayCompact (evs.map label)
    if 2 ≤ seq.length then
      some { session_id := sid, path_sequence := seq
             timestamps := evs.map (fun e => e.timestamp) }
    else none)

/-- The collapsed label sequence one session would get in user_paths. -/
def collapsedPath (label : Event → String) (store : List Event) (sid : String) :
    List String :=
  arrayCompact ((eventsOfSession store sid).map label)

theorem mem_buildUserPaths (label : Event → String) (store : List Event)
    (p : SessionPath) :
    p ∈ buildUserPaths label store ↔
      p.session_id ∈ sessionIds store ∧
      p.path_sequence = collapsedPath label store p.session_id ∧
      p.timestamps = (eventsOfSession store p.session_id).map (fun e => e.timestamp) ∧
      2 ≤ p.path_sequence.length := by
  rw [buildUserPaths, List.mem_filterMap]
  constructor
  · rintro ⟨sid, hsid, hp⟩
    by_cases h2 : 2 ≤ (arrayCompact ((eventsOfSession store sid).map label)).length
    · rw [if_pos h2] at hp
      cases Option.some.inj hp
      exact ⟨hsid, rfl, rfl, h2⟩
    · rw [if_neg h2] at hp
      exact absurd hp (by simp)
  · rintro ⟨hsid, hseq, hts, h2⟩
    refine ⟨p.session_id, hsid, ?_⟩
    rw [collapsedPath] at hseq
    rw [if_pos (hseq ▸ h2)]
    cases p
    simp only at hseq hts
    simp [hseq, hts]

/-- Projecting the session ids of the built user paths gives a sublist of the
distinct session ids, hence no duplicates. -/
theorem map_sid_buildUserPaths_sublist (label : Event → String) (store : List Event) :
    ((buildUserPaths label store).map (fun p => p.session_id)).Sublist (sessionIds store) := by
  rw [buildUserPaths]
  generalize sessionIds store = sids
  induction sids with
  | nil => simp
  | cons sid t ih =>
    rw [List.filterMap_cons]
    by_cases h2 : 2 ≤ (arrayCompact ((eventsOfSession store sid).map label)).length
    · rw [if_pos h2]
      simpa using List.Sublist.cons₂ sid ih
    · rw [if_neg h2]
      exact ih.cons sid

theorem nodup_buildUserPaths_sids (label : Event → String) (store : List Event) :
    ((buildUserPaths label store).map (fun p => p.session_id)).Nodup :=
  (map_sid_buildUserPaths_sublist label store).nodup (nodup_dedupKeepFirst _)

/-! ### getJourneys -/

/-- The percentage denominator subquery of getJourneys: count of distinct
session ids over the base site/time/filter predicate, with no event-type or
excluded-name condition. -/
def distinct_session_count (store : List Event) : Nat := (sessionIds store).length

/-- One row of the getJourneys response. -/
structure JourneyRow where
  journey : List String
  sessions_count : Nat
  percentage : ℚ
deriving DecidableEq, Repr

/-- The user_paths CTE of getJourneys, with its own step label rule. -/
def user_paths_journeys (includeEvents : Bool) (excl : List String)
    (store : List Event) : List SessionPath :=
  buildUserPaths stepLabelJ (journeyEvents includeEvents excl store)

/-- The journey_segments CTE: truncate each collapsed path to the first
maxSteps entries, group equal truncations with their session counts, keep the
groups passing the step-filter HAVING condition, order by count descending and
keep the first journeyLimit groups. -/
def journey_segments (maxSteps journeyLimit : Nat) (stepFilter : List String → Bool)
    (paths : List SessionPath) : List (List String × Nat) :=
  let truncated := paths.map (fun p => p.path_sequence.take maxSteps)
  let groups := (dedupKeepFirst truncated).map (fun j => (j, truncated.count j))
  let kept := groups.filter (fun g => stepFilter g.1)
  (sortByLE (fun a b => b.2 ≤ a.2) kept).take journeyLimit

/-- The final SELECT of getJourneys: each retained group with its count and
its percentage of all distinct sessions in the base predicate.  The step
filter predicate stands for the compiled HAVING condition built from the
stepFilters parameter. -/
def getJourneysData (store : List Event) (maxSteps journeyLimit : Nat)
    (includeEvents : Bool) (excl : List String) (stepFilter : List String → Bool) :
    List JourneyRow :=
  (journey_segments maxSteps journeyLimit stepFilter
      (user_paths_journeys includeEvents excl store)).map
    (fun g => { journey := g.1, sessions_count := g.2
                percentage := (g.2 : ℚ) * 100 / (distinct_session_count store : ℚ) })

/-! ### getJourneyTransitionSessions -/

/-- ClickHouse arrayIndexOf: 1-based index of the first occurrence, 0 when the
value is absent. -/
def arrayIndexOf [DecidableEq α] : List α → α → Nat
  | [], _ => 0
  | a :: t, x =>
    if a = x then 1
    else
      let r := arrayIndexOf t x
      if r = 0 then 0 else r + 1

/-- ClickHouse arrayElement with a 1-based index, default 0 out of range. -/
def arrayElement (l : List Nat) (n : Nat) : Nat :=
  if n = 0 then 0 else l.getD (n - 1) 0

/-- The user_paths CTE of getJourneyTransitionSessions. -/
def user_paths_transitions (includeEvents : Bool) (excl : List String)
    (store : List Event) : List SessionPath :=
  buildUserPaths stepLabelT (journeyEvents includeEvents excl store)

/-- The WHERE condition of the matching_sessions CTE (and of the count query):
both labels occur, source strictly before target, and, when the optional
0-based step constraints are supplied, at exactly the constrained (1-based)
collapsed positions. -/
def transitionMatch (source target : String) (sourceStep targetStep : Option Nat)
    (p : SessionPath) : Bool :=
  let si := arrayIndexOf p.path_sequence source
  let ti := arrayIndexOf p.path_sequence target
  0 < si && 0 < ti && si < ti &&
    (match sourceStep with | some s => si = s + 1 | none => true) &&
    (match targetStep with | some t => ti = t + 1 | none => true)

/-- The matching_sessions CTE. -/
def matching_sessions (includeEvents : Bool) (excl : List String)
    (source target : String) (sourceStep targetStep : Option Nat)
    (store : List Event) : List SessionPath :=
  (user_paths_transitions includeEvents excl store).filter
    (transitionMatch source target sourceStep targetStep)

/-- The transition_timestamp column: the element of the uncollapsed timestamp
array at the collapsed 1-based index of the source label. -/
def transition_timestamp (source : String) (p : SessionPath) : Nat :=
  arrayElement p.timestamps (arrayIndexOf p.path_sequence source)

/-- The matched sessions ordered by transition timestamp descending (the main
query's ORDER BY before LIMIT/OFFSET). -/
def rankedTransitionSessions (includeEvents : Bool) (excl : List String)
    (source target : String) (sourceStep targetStep : Option Nat)
    (store : List Event) : List SessionPath :=
  sortByLE (fun a b => transition_timestamp source b ≤ transition_timestamp source a)
    (matching_sessions includeEvents excl source target sourceStep targetStep store)

/-- The page slice of the main query: OFFSET (page minus 1) times limit, then
LIMIT limit. -/
def transitionPage (includeEvents : Bool) (excl : List String)
    (source target : String) (sourceStep targetStep : Option Nat)
    (store : List Event) (page limit : Nat) : List SessionPath :=
  ((rankedTransitionSessions includeEvents excl source target sourceStep targetStep
      store).drop ((page - 1) * limit)).take limit

/-- The count query: its own user_paths construction, the same transition
condition, then count of distinct session ids. -/
def transitionCountTotal (includeEvents : Bool) (excl : List String)
    (source target : String) (sourceStep targetStep : Option Nat)
    (store : List Event) : Nat :=
  (dedupKeepFirst (((buildUserPaths stepLabelT (journeyEvents includeEvents excl store)).filter
      (transitionMatch source target sourceStep targetStep)).map
        (fun p => p.session_id))).length

/-- Math.ceil of the exact division total over limit, as the handler computes
totalPages. -/
def totalPagesOf (total limit : Nat) : Nat :=
  Nat.ceil ((total : ℚ) / (limit : ℚ))

/-! ### getJourneyStepEventDetails -/

/-- The WHERE filter of both detail queries: pageviews or interaction events,
with no includeEvents flag and no excluded names. -/
def detailsEvents (store : List Event) : List Event :=
  store.filter (fun e => e.type = "pageview" || interactionTypes.contains e.type)

/-- The numbered_events CTE: every retained event with its 1-based row number
within its session ordered by timestamp. -/
def numbered_events (store : List Event) : List (Event × Nat) :=
  (sessionIds (detailsEvents store)).flatMap (fun sid =>
    ((eventsOfSession (detailsEvents store) sid).enum).map (fun p => (p.2, p.1 + 1)))

/-- The target_step_events CTE: the numbered events whose step label matches
and, when a 0-based stepIndex is supplied, whose row number is stepIndex
plus 1. -/
def target_step_events (store : List Event) (stepLabel : String)
    (stepIndex : Option Nat) : List (Event × Nat) :=
  (numbered_events store).filter (fun en =>
    stepLabelD en.1 = stepLabel &&
      (match stepIndex with | some i => en.2 = i + 1 | none => true))

/-- The events_with_props CTE: retained events with a non-empty property
bag. -/
def events_with_props (store : List Event) (stepLabel : String)
    (stepIndex : Option Nat) : List Event :=
  ((target_step_events store stepLabel stepIndex).map (fun en => en.1)).filter
    (fun e => e.props ≠ [])

/-- Flattening of the retained property bags into key/value pairs, in event
order (the ARRAY JOIN). -/
def propertyPairs (store : List Event) (stepLabel : String)
    (stepIndex : Option Nat) : List (String × String) :=
  (events_with_props store stepLabel stepIndex).flatMap (fun e => e.props)

/-- ORDER BY propertyKey ASC, count DESC as a boolean comparator. -/
def histLE (a b : (String × String) × Nat) : Bool :=
  a.1.1 < b.1.1 || (a.1.1 = b.1.1 && b.2 ≤ a.2)

/-- Histogram of a pair list: group equal pairs with their counts, order by
key ascending then count descending, cap at 500 rows. -/
def histogramOfPairs (pairs : List (String × String)) :
    List ((String × String) × Nat) :=
  (sortByLE histLE ((dedupKeepFirst pairs).map (fun kv => (kv, pairs.count kv)))).take 500

/-- The property histogram result set of the first detail query. -/
def propertyHistogram (store : List Event) (stepLabel : String)
    (stepIndex : Option Nat) : List ((String × String) × Nat) :=
  histogramOfPairs (propertyPairs store stepLabel stepIndex)

/-- One row of the raw events list of the second detail query. -/
structure JourneyStepEvent where
  timestamp : Nat
  user_id : String
  identified_user_id : String
  session_id : String
deriving DecidableEq, Repr

def projStepEvent (e : Event) : JourneyStepEvent :=
  { timestamp := e.timestamp, user_id := e.user_id
    identified_user_id := e.identified_user_id, session_id := e.session_id }

/-- The second detail query before its LIMIT: the retained events (no property
condition) ordered by timestamp descending, projected to the four returned
columns. -/
def step_events_ranked (store : List Event) (stepLabel : String)
    (stepIndex : Option Nat) : List JourneyStepEvent :=
  (sortByLE (fun a b => b.1.timestamp ≤ a.1.timestamp)
      (target_step_events store stepLabel stepIndex)).map (fun en => projStepEvent en.1)

/-- The raw events list of the second detail query: LIMIT 100. -/
def step_events_list (store : List Event) (stepLabel : String)
    (stepIndex : Option Nat) : List JourneyStepEvent :=
  (step_events_ranked store stepLabel stepIndex).take 100

/-! ### Request parsing of getJourneyTransitionSessions -/

def digitVal (c : Char) : Nat := c.toNat - 48

/-- JavaScript parseInt with radix 10 applied to a query string: skip leading
whitespace, read an optional sign, then the maximal run of leading decimal
digits; no digits gives NaN, modelled as none. -/
def parseIntJS (s : String) : Option Int :=
  let t := s.data.dropWhile (fun c => c = ' ' || c = '\t' || c = '\n' || c = '\r')
  let signAndRest : Int × List Char :=
    match t with
    | '-' :: r => (-1, r)
    | '+' :: r => (1, r)
    | r => (1, r)
  let digits := signAndRest.2.takeWhile Char.isDigit
  if digits.isEmpty then none
  else some (signAndRest.1 * (digits.foldl (fun n c => n * 10 + digitVal c) 0 : Nat))

/-- The handler's reply, reduced to what the validation prelude decides:
either a 400 with a message, or proceeding to the store queries with the
computed limit, page and offset (NaN modelled as none). -/
inductive TransitionReply where
  | badRequest (msg : String)
  | proceeds (limitNum : Int) (pageNum : Option Int) (offset : Option Int)
deriving DecidableEq, Repr

/-- The validation prelude of getJourneyTransitionSessions: missing source or
target gives a 400; limit and page are parsed with parseInt and the offset is
computed; only limit is range-checked before the queries run. -/
def transitionRequestGate (source target limit page : String) : TransitionReply :=
  if source = "" ∨ target = "" then .badRequest "source and target are required"
  else
    let limitNum := parseIntJS limit
    let pageNum := parseIntJS page
    let offset : Option Int :=
      match pageNum, limitNum with
      | some p, some l => some ((p - 1) * l)
      | _, _ => none
    match limitNum with
    | none => .badRequest "limit must be between 1 and 200"
    | some l =>
      if l < 1 ∨ 200 < l then .badRequest "limit must be between 1 and 200"
      else .proceeds l pageNum offset

/-! ### Spec-side comparison definitions and demo stores -/

/-- First-occurrence index, 0-based and optional, as the spec words it. -/
def firstIndexOf [DecidableEq α] : List α → α → Option Nat
  | [], _ => none
  | a :: t, x => if a = x then some 0 else (firstIndexOf t x).map (fun i => i + 1)

theorem arrayIndexOf_eq_firstIndexOf [DecidableEq α] (l : List α) (x : α) :
    arrayIndexOf l x = (match firstIndexOf l x with | none => 0 | some i => i + 1) := by
  induction l with
  | nil => rfl
  | cons a t ih =>
    by_cases h : a = x
    · rw [arrayIndexOf, if_pos h, firstIndexOf, if_pos h]
    · rw [arrayIndexOf, if_neg h, firstIndexOf, if_neg h]
      cases hf : firstIndexOf t x with
      | none => rw [hf] at ih; simp [ih]
      | some i => rw [hf] at ih; simp [ih]

/-- The spec's retention predicate: source and target both occur, the first
occurrence of source is strictly before that of target, and the supplied
0-based step constraints pin those first occurrences exactly. -/
def SpecQualifies (labels : List String) (source target : String)
    (ss ts : Option Nat) : Prop :=
  ∃ i j, firstIndexOf labels source = some i ∧ firstIndexOf labels target = some j ∧
    i < j ∧ (∀ s, ss = some s → i = s) ∧ (∀ t, ts = some t → j = t)

/-- The spec's transition timestamp: the timestamp of the event at which the
source step's first occurrence happened, i.e. of the first event in the
session scan whose step label is the source label. -/
def specSourceOccurrenceTimestamp (includeEvents : Bool) (excl : List String)
    (store : List Event) (sid source : String) : Nat :=
  match (eventsOfSession (journeyEvents includeEvents excl store) sid).find?
      (fun e => stepLabelT e = source) with
  | some e => e.timestamp
  | none => 0

/-- A pageview event fixture. -/
def mkPV (sid : String) (ts : Nat) (path : String) : Event :=
  { session_id := sid, timestamp := ts, type := "pageview", pathname := path
    event_name := "", user_id := "u", identified_user_id := "", props := [] }

/-- Demo store for the transition timestamp bug: one session whose first two
events carry the same label and therefore collapse. -/
def c2store : List Event :=
  [mkPV "s1" 1 "/a", mkPV "s1" 2 "/a", mkPV "s1" 3 "/b", mkPV "s1" 4 "/c"]

/-- Demo store with one two-step session and one single-event session. -/
def demoC4 : List Event := [mkPV "A" 1 "/x", mkPV "A" 2 "/y", mkPV "B" 3 "/z"]

/-- Demo store with a lone single-event session. -/
def demoC7 : List Event := [mkPV "s1" 1 "/a"]

/-! ### Claims -/

/-- Claim C1, counterexample: the step labels derived by getJourneys and by
getJourneyTransitionSessions differ on the pageview pathname slash-a-slash-b,
so the three step-labeling functions are not all extensionally equal. -/
theorem c1_counterexample :
    step_label_journeys "pageview" "/a/b" "" ≠ step_label_transitions "pageview" "/a/b" "" := by
  decide

/-- Claim C1, amended: the step-labeling functions of the Transition Finder
and of the Step Detail Aggregator are extensionally equal; the Journey
Aggregator's differs from them on pageview pathnames. -/
theorem c1_amended :
    ∀ type pathname event_name,
      step_label_transitions type pathname event_name =
        step_label_details type pathname event_name :=
  fun _ _ _ => rfl

/-- Claim C6: the Session Path Builder emits each session's label sequence
with every maximal run of consecutive equal labels collapsed to one entry
(non-consecutive repeats stay distinct); in particular a label sequence
a,a,b,c,c,c collapses to a,b,c. -/
theorem c6_session_path_collapse :
    (∀ (label : Event → String) (store : List Event) (p : SessionPath),
        p ∈ buildUserPaths label store →
        p.path_sequence = collapseRuns ((eventsOfSession store p.session_id).map label)) ∧
    (∀ a b c : String, a ≠ b → b ≠ c →
        arrayCompact [a, a, b, c, c, c] = [a, b, c]) := by
  constructor
  · intro label store p hp
    have h := ((mem_buildUserPaths label store p).mp hp).2.1
    rw [h, collapsedPath, arrayCompact_eq_collapseRuns]
  · intro a b c hab hbc
    simp [arrayCompact, hab, hbc]

/-- Witness for claim C6: the collapse equations evaluated on the demo store
and on a concrete label list. -/
theorem c6_witness :
    ({ session_id := "s1", path_sequence := ["/a", "/b", "/c"], timestamps := [1, 2, 3, 4] } :
        SessionPath).path_sequence =
      collapseRuns ((eventsOfSession (journeyEvents true [] c2store) "s1").map stepLabelT) ∧
    arrayCompact ["/a", "/a", "/b", "/c", "/c", "/c"] = ["/a", "/b", "/c"] :=
  ⟨c6_session_path_collapse.1 stepLabelT (journeyEvents true [] c2store) _ (by decide),
   c6_session_path_collapse.2 "/a" "/b" "/c" (by decide) (by decide)⟩

/-- Claim C2: the code stores the element of the uncollapsed timestamp array
at the collapsed source index as the transition timestamp; on a session with
a collapsed duplicate before the source occurrence it returns 2, while the
source step's first occurrence happened at timestamp 3, so the claimed
equality fails on the code. -/
theorem c2_transition_timestamp_bug :
    (matching_sessions true [] "/b" "/c" none none c2store).map
        (transition_timestamp "/b") = [2] ∧
    specSourceOccurrenceTimestamp true [] c2store "s1" "/b" = 3 ∧
    (matching_sessions true [] "/b" "/c" none none c2store).map
        (transition_timestamp "/b") ≠
      [specSourceOccurrenceTimestamp true [] c2store "s1" "/b"] := by
  refine ⟨by decide, by decide, ?_⟩
  intro h
  have h2 : (2 : Nat) = 3 := by
    have h1 : (matching_sessions true [] "/b" "/c" none none c2store).map
        (transition_timestamp "/b") = [2] := by decide
    have h3 : specSourceOccurrenceTimestamp true [] c2store "s1" "/b" = 3 := by decide
    rw [h1, h3] at h
    exact List.cons.inj h |>.1
  exact absurd h2 (by decide)

/-- Claim C5: a non-numeric limit is rejected with a 400, but the handler
never validates page: page zero and a non-numeric page both proceed to the
store queries, with offset minus-50 respectively NaN, instead of returning a
client validation error. -/
theorem c5_page_validation_missing :
    transitionRequestGate "/a" "/b" "abc" "1" =
        .badRequest "limit must be between 1 and 200" ∧
    transitionRequestGate "/a" "/b" "50" "0" = .proceeds 50 (some 0) (some (-50)) ∧
    transitionRequestGate "/a" "/b" "50" "abc" = .proceeds 50 none none := by
  refine ⟨by decide, by decide, by decide⟩

theorem match_step_iff (o : Option Nat) (v : Nat) :
    ((match o with | some s => decide (v = s + 1) | none => true) = true) ↔
      (∀ s, o = some s → v = s + 1) := by
  cases o with
  | none => simp
  | some s => simp

theorem transitionMatch_iff (source target : String) (ss ts : Option Nat)
    (p : SessionPath) :
    transitionMatch source target ss ts p = true ↔
      SpecQualifies p.path_sequence source target ss ts := by
  have hs := arrayIndexOf_eq_firstIndexOf p.path_sequence source
  have ht := arrayIndexOf_eq_firstIndexOf p.path_sequence target
  simp only [transitionMatch, SpecQualifies]
  rw [Bool.and_eq_true, Bool.and_eq_true, Bool.and_eq_true, Bool.and_eq_true]
  constructor
  · rintro ⟨⟨⟨⟨h1, h2⟩, h3⟩, h4⟩, h5⟩
    rw [decide_eq_true_eq] at h1 h2 h3
    rw [hs] at h1 h3
    rw [ht] at h2 h3
    rw [match_step_iff] at h4 h5
    cases hfs : firstIndexOf p.path_sequence source with
    | none => rw [hfs] at h1; simp at h1
    | some i =>
      cases hft : firstIndexOf p.path_sequence target with
      | none => rw [hft] at h2; simp at h2
      | some j =>
        rw [hfs, hft] at h3
        have h3x : i + 1 < j + 1 := h3
        refine ⟨i, j, rfl, rfl, by omega, ?_, ?_⟩
        · intro s hss
          have h6 := h4 s hss
          rw [hs, hfs] at h6
          have h6x : i + 1 = s + 1 := h6
          omega
        · intro t htt
          have h6 := h5 t htt
          rw [ht, hft] at h6
          have h6x : j + 1 = t + 1 := h6
          omega
  · rintro ⟨i, j, hfs, hft, hij, hsrc, htgt⟩
    refine ⟨⟨⟨⟨?_, ?_⟩, ?_⟩, ?_⟩, ?_⟩
    · rw [decide_eq_true_eq, hs, hfs]
      show 0 < i + 1
      omega
    · rw [decide_eq_true_eq, ht, hft]
      show 0 < j + 1
      omega
    · rw [decide_eq_true_eq, hs, hfs, ht, hft]
      show i + 1 < j + 1
      omega
    · rw [match_step_iff]
      intro s hss
      rw [hs, hfs]
      show i + 1 = s + 1
      rw [hsrc s hss]
    · rw [match_step_iff]
      intro t htt
      rw [ht, hft]
      show j + 1 = t + 1
      rw [htgt t htt]

/-- Claim C3: a session is retained by the Transition Finder iff it is in the
user_paths pool and the spec's retention predicate holds of its collapsed
path: both labels occur, source's first occurrence strictly before target's,
and the optional 0-based step constraints pin those positions; including the
spec's concrete examples on the paths slash-a slash-b, slash-b slash-a and
slash-a slash-x slash-b. -/
theorem c3_transition_retention :
    (∀ (includeEvents : Bool) (excl : List String) (source target : String)
        (ss ts : Option Nat) (store : List Event) (p : SessionPath),
        p ∈ matching_sessions includeEvents excl source target ss ts store ↔
          p ∈ user_paths_transitions includeEvents excl store ∧
            SpecQualifies p.path_sequence source target ss ts) ∧
    transitionMatch "/a" "/b" none none ⟨"s", ["/a", "/b"], []⟩ = true ∧
    transitionMatch "/a" "/b" none none ⟨"s", ["/b", "/a"], []⟩ = false ∧
    transitionMatch "/a" "/b" none none ⟨"s", ["/a", "/x", "/b"], []⟩ = true ∧
    transitionMatch "/a" "/b" (some 0) (some 2) ⟨"s", ["/a", "/x", "/b"], []⟩ = true ∧
    transitionMatch "/a" "/b" (some 1) (some 2) ⟨"s", ["/a", "/x", "/b"], []⟩ = false ∧
    transitionMatch "/a" "/b" (some 0) (some 1) ⟨"s", ["/a", "/x", "/b"], []⟩ = false := by
  refine ⟨?_, by decide, by decide, by decide, by decide, by decide, by decide⟩
  intro includeEvents excl source target ss ts store p
  rw [matching_sessions, List.mem_filter]
  exact and_congr_right (fun _ => transitionMatch_iff source target ss ts p)

/-- Witness for claim C3: the retention equivalence instantiated on the
two-step demo path. -/
theorem c3_witness :
    transitionMatch "/a" "/b" none none ⟨"s", ["/a", "/b"], []⟩ = true :=
  c3_transition_retention.2.1

/-- Claim C4: every journey row's percentage is 100 times its session count
divided by the distinct-session count of the base site/time/filter predicate,
which counts sessions with fewer than two collapsed steps as well. -/
theorem c4_percentage_denominator :
    ∀ (store : List Event) (maxSteps journeyLimit : Nat) (includeEvents : Bool)
      (excl : List String) (stepFilter : List String → Bool) (j : JourneyRow),
      j ∈ getJourneysData store maxSteps journeyLimit includeEvents excl stepFilter →
      j.percentage = (j.sessions_count : ℚ) * 100 / (distinct_session_count store : ℚ) := by
  intro store maxSteps journeyLimit includeEvents excl stepFilter j hj
  rw [getJourneysData] at hj
  obtain ⟨g, hg, rfl⟩ := List.mem_map.mp hj
  rfl

/-- The single journey row getJourneys produces on the demo store with one
two-step session and one single-event session. -/
def demoC4Row : JourneyRow :=
  { journey := ["/x", "/y"], sessions_count := 1
    percentage := ((1 : Nat) : ℚ) * 100 / ((distinct_session_count demoC4 : Nat) : ℚ) }

/-- Witness for claim C4: the percentage equation on the demo store, whose
denominator 2 counts the single-event session excluded from the numerator
pool. -/
theorem c4_witness :
    demoC4Row.percentage =
      (demoC4Row.sessions_count : ℚ) * 100 / (distinct_session_count demoC4 : ℚ) :=
  c4_percentage_denominator demoC4 3 100 true [] (fun _ => true) demoC4Row
    (List.mem_singleton_self _)

/-- Claim C10: with steps at least 2, every returned journey's path length is
between 2 and steps: the at-least-two-steps session filter applies to the
full collapsed path and truncation takes the first steps entries. -/
theorem c10_journey_length_bounds :
    ∀ (store : List Event) (maxSteps journeyLimit : Nat) (includeEvents : Bool)
      (excl : List String) (stepFilter : List String → Bool) (j : JourneyRow),
      2 ≤ maxSteps →
      j ∈ getJourneysData store maxSteps journeyLimit includeEvents excl stepFilter →
      2 ≤ j.journey.length ∧ j.journey.length ≤ maxSteps := by
  intro store maxSteps journeyLimit includeEvents excl stepFilter j h2 hj
  rw [getJourneysData] at hj
  obtain ⟨g, hg, rfl⟩ := List.mem_map.mp hj
  simp only [journey_segments] at hg
  have hg1 := List.mem_of_mem_take hg
  rw [mem_sortByLE] at hg1
  have hg2 := (List.mem_filter.mp hg1).1
  obtain ⟨j0, hj0, rfl⟩ := List.mem_map.mp hg2
  rw [mem_dedupKeepFirst] at hj0
  obtain ⟨p, hp, rfl⟩ := List.mem_map.mp hj0
  have hlen := ((mem_buildUserPaths _ _ _).mp hp).2.2.2
  constructor
  · show 2 ≤ (p.path_sequence.take maxSteps).length
    rw [List.length_take]
    exact le_min h2 hlen
  · show (p.path_sequence.take maxSteps).length ≤ maxSteps
    rw [List.length_take]
    exact min_le_left _ _

/-- Witness for claim C10: the bounds evaluated on the demo store's single
journey at steps 3. -/
theorem c10_witness : 2 ≤ demoC4Row.journey.length ∧ demoC4Row.journey.length ≤ 3 :=
  c10_journey_length_bounds demoC4 3 100 true [] (fun _ => true) demoC4Row (by decide)
    (List.mem_singleton_self _)

/-- The sessions grouped into the journey with the given truncated path: the
user_paths rows whose truncation equals it. -/
def journeyMemberSessions (includeEvents : Bool) (excl : List String) (maxSteps : Nat)
    (j : List String) (store : List Event) : List String :=
  ((user_paths_journeys includeEvents excl store).filter
      (fun p => p.path_sequence.take maxSteps = j)).map (fun p => p.session_id)

theorem sid_not_in_buildUserPaths (label : Event → String) (st : List Event)
    (sid : String) (h : (collapsedPath label st sid).length = 1) :
    sid ∉ (buildUserPaths label st).map (fun p => p.session_id) := by
  intro hm
  obtain ⟨p, hp, hsid⟩ := List.mem_map.mp hm
  obtain ⟨_, hseq, _, hlen⟩ := (mem_buildUserPaths label st p).mp hp
  rw [hsid] at hseq
  rw [hseq, h] at hlen
  omega

/-- Claim C7: a session whose collapsed path has length 1 is grouped into no
returned journey, and appears neither among the transition matches, nor in
any page slice, nor among the distinct sessions the count query counts. -/
theorem c7_short_session_excluded :
    ∀ (store : List Event) (includeEvents : Bool) (excl : List String) (sid : String),
      (collapsedPath stepLabelJ (journeyEvents includeEvents excl store) sid).length = 1 →
      (collapsedPath stepLabelT (journeyEvents includeEvents excl store) sid).length = 1 →
      (∀ (maxSteps journeyLimit : Nat) (stepFilter : List String → Bool) (j : JourneyRow),
          j ∈ getJourneysData store maxSteps journeyLimit includeEvents excl stepFilter →
          sid ∉ journeyMemberSessions includeEvents excl maxSteps j.journey store) ∧
      (∀ (source target : String) (ss ts : Option Nat),
          sid ∉ (matching_sessions includeEvents excl source target ss ts store).map
              (fun p => p.session_id) ∧
          (∀ page limit : Nat,
              sid ∉ (transitionPage includeEvents excl source target ss ts store
                  page limit).map (fun p => p.session_id)) ∧
          sid ∉ dedupKeepFirst
              (((buildUserPaths stepLabelT (journeyEvents includeEvents excl store)).filter
                  (transitionMatch source target ss ts)).map (fun p => p.session_id))) := by
  intro store includeEvents excl sid hJ hT
  have hJ2 := sid_not_in_buildUserPaths _ _ _ hJ
  have hT2 := sid_not_in_buildUserPaths _ _ _ hT
  constructor
  · intro maxSteps journeyLimit stepFilter j hj hmem
    obtain ⟨p, hp, hsid⟩ := List.mem_map.mp hmem
    have hp2 := (List.mem_filter.mp hp).1
    exact hJ2 (List.mem_map.mpr ⟨p, hp2, hsid⟩)
  · intro source target ss ts
    have hmatch : sid ∉ (matching_sessions includeEvents excl source target ss ts
        store).map (fun p => p.session_id) := by
      intro hm
      obtain ⟨p, hp, hsid⟩ := List.mem_map.mp hm
      have hp2 := (List.mem_filter.mp hp).1
      exact hT2 (List.mem_map.mpr ⟨p, hp2, hsid⟩)
    refine ⟨hmatch, ?_, ?_⟩
    · intro page limit hm
      obtain ⟨p, hp, hsid⟩ := List.mem_map.mp hm
      have hp1 : p ∈ rankedTransitionSessions includeEvents excl source target ss ts store :=
        List.drop_subset _ _ (List.take_subset _ _ hp)
      have hp2 := (mem_sortByLE _ p _).mp hp1
      exact hmatch (List.mem_map.mpr ⟨p, hp2, hsid⟩)
    · intro hm
      rw [mem_dedupKeepFirst] at hm
      exact hmatch hm

/-- Witness for claim C7: the single-event demo session is excluded from the
transition matches. -/
theorem c7_witness :
    "s1" ∉ (matching_sessions true [] "/a" "/b" none none demoC7).map
        (fun p => p.session_id) :=
  ((c7_short_session_excluded demoC7 true [] "s1" (by decide) (by decide)).2
      "/a" "/b" none none).1

theorem totalPagesOf_eq (total limit : Nat) (h : 0 < limit) :
    totalPagesOf total limit = (total + limit - 1) / limit := by
  rcases Nat.eq_zero_or_pos total with rfl | ht
  · rw [totalPagesOf]
    rw [Nat.cast_zero, zero_div]
    rw [Nat.ceil_zero]
    rw [Nat.zero_add, Nat.div_eq_of_lt (Nat.sub_lt h Nat.one_pos)]
  · have hdm := Nat.div_add_mod (total + limit - 1) limit
    have hr : (total + limit - 1) % limit < limit := Nat.mod_lt _ h
    generalize hqe : (total + limit - 1) / limit = q at hdm ⊢
    obtain ⟨A, hA⟩ : ∃ A, limit * q = A := ⟨_, rfl⟩
    rw [hA] at hdm
    have h1a : total ≤ A := by omega
    have h1xa : A < total + limit := by omega
    have h1 : total ≤ limit * q := by rw [hA]; exact h1a
    have h1x : limit * q < total + limit := by rw [hA]; exact h1xa
    have hqpos : 0 < q := by
      rcases Nat.eq_zero_or_pos q with rfl | hp
      · rw [Nat.mul_zero] at h1; omega
      · exact hp
    obtain ⟨q0, rfl⟩ : ∃ q0, q = q0 + 1 := ⟨q - 1, by omega⟩
    have h2 : limit * q0 < total := by
      rw [Nat.mul_succ] at h1x
      exact Nat.lt_of_add_lt_add_right h1x
    have hlq : (0 : ℚ) < (limit : ℚ) := by exact_mod_cast h
    rw [totalPagesOf]
    refine le_antisymm ?_ ?_
    · rw [Nat.ceil_le, div_le_iff₀ hlq]
      have hc : (total : ℚ) ≤ ((limit * (q0 + 1) : Nat) : ℚ) := by exact_mod_cast h1
      push_cast at hc ⊢
      linarith
    · have hlt : q0 < Nat.ceil ((total : ℚ) / (limit : ℚ)) := by
        rw [Nat.lt_ceil, lt_div_iff₀ hlq]
        have hc : ((limit * q0 : Nat) : ℚ) < (total : ℚ) := by exact_mod_cast h2
        push_cast at hc ⊢
        linarith
      omega

theorem pairwise_sortByLE_keyDesc (key : α → Nat) (l : List α) :
    (sortByLE (fun a b => decide (key b ≤ key a)) l).Pairwise
      (fun a b => key b ≤ key a) := by
  have h := pairwise_sortByLE (fun a b => decide (key b ≤ key a))
    (by
      intro a b hab
      rw [decide_eq_false_iff_not, not_le] at hab
      rw [decide_eq_true_eq]
      omega)
    (by
      intro a b c h1 h2
      rw [decide_eq_true_eq] at h1 h2 ⊢
      omega) l
  exact h.imp (fun hab => by rwa [decide_eq_true_eq] at hab)

/-- Claim C8: the page slice is the ranked qualifying list at offsets
page-minus-1 times limit, the ranking is a permutation of the qualifying
sessions sorted by transition timestamp descending, the count query total is
the number of qualifying sessions independent of limit and page, and
totalPages is the ceiling of total over limit, with 120 over 50 giving 3. -/
theorem c8_pagination :
    ∀ (store : List Event) (includeEvents : Bool) (excl : List String)
      (source target : String) (ss ts : Option Nat) (page limit i : Nat),
      0 < limit → i < limit →
      ((transitionPage includeEvents excl source target ss ts store page limit).get? i =
          (rankedTransitionSessions includeEvents excl source target ss ts store).get?
            ((page - 1) * limit + i)) ∧
      (rankedTransitionSessions includeEvents excl source target ss ts store).Perm
          (matching_sessions includeEvents excl source target ss ts store) ∧
      (rankedTransitionSessions includeEvents excl source target ss ts store).Pairwise
          (fun a b => transition_timestamp source b ≤ transition_timestamp source a) ∧
      transitionCountTotal includeEvents excl source target ss ts store =
          (matching_sessions includeEvents excl source target ss ts store).length ∧
      totalPagesOf (transitionCountTotal includeEvents excl source target ss ts store)
          limit =
        (transitionCountTotal includeEvents excl source target ss ts store + limit - 1) /
          limit ∧
      totalPagesOf 120 50 = 3 := by
  intro store includeEvents excl source target ss ts page limit i hl hi
  refine ⟨?_, ?_, ?_, ?_, ?_, ?_⟩
  · rw [transitionPage, List.get?_take hi, List.get?_drop]
  · exact perm_sortByLE _ _
  · exact pairwise_sortByLE_keyDesc (transition_timestamp source) _
  · rw [transitionCountTotal]
    have hnd : (((buildUserPaths stepLabelT (journeyEvents includeEvents excl store)).filter
        (transitionMatch source target ss ts)).map (fun p => p.session_id)).Nodup := by
      have hsub := (List.filter_sublist
          (l := buildUserPaths stepLabelT (journeyEvents includeEvents excl store))
          (p := transitionMatch source target ss ts)).map (fun p => p.session_id)
      exact hsub.nodup (nodup_buildUserPaths_sids _ _)
    rw [dedupKeepFirst_eq_self _ hnd, List.length_map]
    rfl
  · exact totalPagesOf_eq _ limit hl
  · rw [totalPagesOf_eq 120 50 (by norm_num)]

/-- Witness for claim C8: the pagination facts applied to the demo store at
page 1, limit 1, index 0. -/
theorem c8_witness : totalPagesOf 120 50 = 3 :=
  (c8_pagination c2store true [] "/b" "/c" none none 1 1 0 (by decide)
      (by decide)).2.2.2.2.2

theorem histLE_eq_true_iff (a b : (String × String) × Nat) :
    histLE a b = true ↔ a.1.1 < b.1.1 ∨ (a.1.1 = b.1.1 ∧ b.2 ≤ a.2) := by
  simp [histLE, Bool.or_eq_true, Bool.and_eq_true, decide_eq_true_eq]

theorem histLE_total (a b : (String × String) × Nat) :
    histLE a b = false → histLE b a = true := by
  intro h
  rw [Bool.eq_false_iff] at h
  rw [histLE_eq_true_iff]
  by_contra hc
  push_neg at hc
  apply h
  rw [histLE_eq_true_iff]
  rcases lt_trichotomy a.1.1 b.1.1 with hlt | heq | hgt
  · exact Or.inl hlt
  · refine Or.inr ⟨heq, ?_⟩
    have := hc.2 heq.symm
    omega
  · exact absurd hgt hc.1
  -- unreachable

theorem histLE_trans (a b c : (String × String) × Nat) :
    histLE a b = true → histLE b c = true → histLE a c = true := by
  rw [histLE_eq_true_iff, histLE_eq_true_iff, histLE_eq_true_iff]
  rintro (h1 | ⟨h1e, h1c⟩) (h2 | ⟨h2e, h2c⟩)
  · exact Or.inl (lt_trans h1 h2)
  · exact Or.inl (h2e ▸ h1)
  · exact Or.inl (h1e ▸ h2)
  · exact Or.inr ⟨h1e.trans h2e, le_trans h2c h1c⟩

/-- Demo event at the detail step carrying the color red property. -/
def demoC9e1 : Event :=
  { session_id := "t1", timestamp := 1, type := "pageview", pathname := "/p"
    event_name := "", user_id := "u1", identified_user_id := "", props := [("color", "red")] }

/-- Second demo event with the same property. -/
def demoC9e2 : Event :=
  { session_id := "t2", timestamp := 2, type := "pageview", pathname := "/p"
    event_name := "", user_id := "u2", identified_user_id := "", props := [("color", "red")] }

/-- Demo event at the same step with an empty property bag. -/
def demoC9e3 : Event :=
  { session_id := "t3", timestamp := 3, type := "pageview", pathname := "/p"
    event_name := "", user_id := "u3", identified_user_id := "", props := [] }

/-- Demo store for the step detail aggregator. -/
def demoC9 : List Event := [demoC9e1, demoC9e2, demoC9e3]

/-- Claim C9: two retained events whose flattened property pairs are exactly
color-red twice give the single histogram row color, red, 2; a retained event
with an empty bag is excluded from the histogram input yet kept for the raw
events query; the histogram is at most 500 rows ordered by key ascending then
count descending, and the events list is the first 100 projected retained
events ordered most recent first. -/
theorem c9_step_detail :
    (∀ (store : List Event) (stepLabel : String) (stepIndex : Option Nat),
        propertyPairs store stepLabel stepIndex = [("color", "red"), ("color", "red")] →
        propertyHistogram store stepLabel stepIndex = [(("color", "red"), 2)]) ∧
    (∀ (store : List Event) (stepLabel : String) (stepIndex : Option Nat)
        (e : Event) (n : Nat),
        (e, n) ∈ target_step_events store stepLabel stepIndex → e.props = [] →
        e ∉ events_with_props store stepLabel stepIndex ∧
          projStepEvent e ∈ step_events_ranked store stepLabel stepIndex) ∧
    (∀ (store : List Event) (stepLabel : String) (stepIndex : Option Nat),
        (propertyHistogram store stepLabel stepIndex).length ≤ 500 ∧
        (propertyHistogram store stepLabel stepIndex).Pairwise
          (fun a b => a.1.1 < b.1.1 ∨ (a.1.1 = b.1.1 ∧ b.2 ≤ a.2)) ∧
        (step_events_list store stepLabel stepIndex).length ≤ 100 ∧
        step_events_list store stepLabel stepIndex =
          (step_events_ranked store stepLabel stepIndex).take 100 ∧
        (step_events_list store stepLabel stepIndex).Pairwise
          (fun a b => b.timestamp ≤ a.timestamp)) := by
  refine ⟨?_, ?_, ?_⟩
  · intro store stepLabel stepIndex hpairs
    rw [propertyHistogram, hpairs]
    decide
  · intro store stepLabel stepIndex e n hmem hprops
    constructor
    · intro hin
      have := (List.mem_filter.mp hin).2
      rw [hprops] at this
      simp at this
    · rw [step_events_ranked]
      refine List.mem_map.mpr ⟨(e, n), ?_, rfl⟩
      rw [mem_sortByLE]
      exact hmem
  · intro store stepLabel stepIndex
    refine ⟨?_, ?_, ?_, rfl, ?_⟩
    · exact List.length_take_le 500 _
    · have hp := pairwise_sortByLE histLE histLE_total histLE_trans
        ((dedupKeepFirst (propertyPairs store stepLabel stepIndex)).map
          (fun kv => (kv, (propertyPairs store stepLabel stepIndex).count kv)))
      have hp2 := hp.sublist (List.take_sublist 500 _)
      exact hp2.imp (fun hab => (histLE_eq_true_iff _ _).mp hab)
    · exact List.length_take_le 100 _
    · have hp := pairwise_sortByLE_keyDesc (fun en => en.1.timestamp)
        (target_step_events store stepLabel stepIndex)
      have hp2 : (step_events_ranked store stepLabel stepIndex).Pairwise
          (fun a b => b.timestamp ≤ a.timestamp) := by
        rw [step_events_ranked]
        exact (List.pairwise_map).mpr (hp.imp (fun h => h))
      exact hp2.sublist (List.take_sublist 100 _)

/-- Witness for claim C9: the histogram and raw-list facts on the three-event
demo store. -/
theorem c9_witness :
    propertyHistogram demoC9 "/p" none = [(("color", "red"), 2)] ∧
    (demoC9e3 ∉ events_with_props demoC9 "/p" none ∧
      projStepEvent demoC9e3 ∈ step_events_ranked demoC9 "/p" none) :=
  ⟨c9_step_detail.1 demoC9 "/p" none (by decide),
   c9_step_detail.2.1 demoC9 "/p" none demoC9e3 1 (by decide) (by decide)⟩

end Rybbit
